import Mathlib

/-!
# Verification of the DNT file reader/writer

A shallow embedding of `src/lib.rs` (crate `dnt-file-reader-writer`): a
decoder and encoder for the DNT binary tabular format, together with proofs
about the byte-level layout, the type-tag resolver, and the decode/encode
round trip.

Modelling conventions:

* A byte stream is a `List Nat`; every byte produced by the encoder is
  reduced `% 256`.  The decoder consumes a prefix of the stream and returns
  the unconsumed tail, so `decode (encode x ++ rest) = some (x, rest)` is the
  round-trip shape.
* Rust panics (`unwrap` on a short read, `panic!` on an unknown type tag,
  and the `String::insert` / `chars().nth().unwrap()` panics on non-ASCII
  data) are modelled as `none`; sequencing of fallible steps is
  `Option.bind`.
* Machine integers are `Nat` / `Int` with explicit reductions: `as u16`,
  `as u32`, `as u8` casts become `% 65536`, `% 4294967296`, `% 256`, and
  release-profile two's-complement wrapping is used for the `u16`
  arithmetic `read_u16() + 1` and `head.len() as u16 - 1`.
* `f32` values never have their numeric value inspected: `read_f32` is
  `f32::from_bits` of a little-endian `u32` and `write_f32` is `to_bits`
  back to the same four bytes, so a `Float32` value is modelled by its
  IEEE-754 bit pattern (a `Nat` below `2^32`), which the byte level moves
  losslessly.
* A Rust `String` is a sequence of Unicode scalar values, modelled as a
  `List Nat` of code points; its UTF-8 byte length (`String::len`) and the
  byte-index semantics of `String::insert` are modelled explicitly, because
  the source indexes strings by byte position.
-/

/-- The semantic column type, `enum DntDataType` in the source. -/
inductive DntDataType
  | String
  | Int32
  | Float32
deriving DecidableEq, Repr

namespace DntDataType

/-- `DntDataType::from_u8`: tag `1` is Text, `2..=3` Int32, `4..=5` Float32,
anything else panics (`none` here). -/
def from_u8 (value : Nat) : Option DntDataType :=
  match value with
  | 1 => some DntDataType.String
  | 2 => some DntDataType.Int32
  | 3 => some DntDataType.Int32
  | 4 => some DntDataType.Float32
  | 5 => some DntDataType.Float32
  | _ => none

end DntDataType

/-- A cell value, `enum DntValue`.  `String` carries the code points of the
Rust string, `Int32` the signed value of the `i32`, `Float32` the IEEE-754
bit pattern of the `f32`. -/
inductive DntValue
  | String (s : List Nat)
  | Int32 (v : Int)
  | Float32 (bits : Nat)
deriving DecidableEq, Repr

/-- `struct DntColumn`: name, resolved semantic type, and the raw wire tag. -/
structure DntColumn where
  text : List Nat
  data_type : DntDataType
  raw_data_type : Nat
deriving DecidableEq, Repr

/-- `struct DntRow`. -/
structure DntRow where
  values : List DntValue
deriving DecidableEq, Repr

/-- `struct DntTable`. -/
structure DntTable where
  head : List DntColumn
  body : List DntRow
deriving DecidableEq, Repr

/-- UTF-8 size in bytes of one Unicode scalar value (how many bytes the
character contributes to `String::len`). -/
def utf8Size (c : Nat) : Nat :=
  if c < 128 then 1 else if c < 2048 then 2 else if c < 65536 then 3 else 4

/-- `String::len` of a modelled string: total UTF-8 byte length. -/
def utf8Len (cs : List Nat) : Nat :=
  (cs.map utf8Size).sum

/-- `String::insert(idx, c)` where `idx` is a byte index: succeeds only when
`idx` falls on a character boundary (or at the end); in Rust it otherwise
panics. -/
def stringInsert (cs : List Nat) (idx : Nat) (c : Nat) : Option (List Nat) :=
  match cs with
  | [] => if idx = 0 then some [c] else none
  | d :: rest =>
    if idx = 0 then some (c :: d :: rest)
    else if idx < utf8Size d then none
    else
      match stringInsert rest (idx - utf8Size d) c with
      | some cs2 => some (d :: cs2)
      | none => none

namespace DntFileReader

/-- `read_byte`: one byte off the stream (`none` on a short read). -/
def read_byte : List Nat → Option (Nat × List Nat)
  | [] => none
  | b :: rest => some (b, rest)

/-- `read_u16`: two bytes, little endian. -/
def read_u16 : List Nat → Option (Nat × List Nat)
  | a :: b :: rest => some (a + 256 * b, rest)
  | _ => none

/-- `read_u32`: four bytes, little endian. -/
def read_u32 : List Nat → Option (Nat × List Nat)
  | a :: b :: c :: d :: rest =>
      some (a + 256 * b + 65536 * c + 16777216 * d, rest)
  | _ => none

/-- `read_i32`: a little-endian `u32` reinterpreted as a two's-complement
signed 32-bit integer. -/
def read_i32 (s : List Nat) : Option (Int × List Nat) :=
  (read_u32 s).bind fun p =>
    some (if p.1 < 2147483648 then (p.1 : Int) else (p.1 : Int) - 4294967296, p.2)

/-- `read_f32`: four little-endian bytes as the bit pattern of an `f32`
(`f32::from_bits` keeps the pattern intact, so the value is the pattern). -/
def read_f32 (s : List Nat) : Option (Nat × List Nat) :=
  read_u32 s

/-- The character-reading loop of `read_string`: `n` characters still to
read, `idx` the loop counter used as the `String::insert` byte index, `acc`
the string built so far. -/
def read_string_loop : Nat → Nat → List Nat → List Nat → Option (List Nat × List Nat)
  | 0, _, acc, s => some (acc, s)
  | n + 1, idx, acc, s =>
    (read_byte s).bind fun bp =>
      (stringInsert acc idx bp.1).bind fun acc1 =>
        read_string_loop n (idx + 1) acc1 bp.2

/-- `read_string`: a 16-bit little-endian length, then that many bytes, each
inserted as one character via `String::insert(index, byte as char)`. -/
def read_string (s : List Nat) : Option (List Nat × List Nat) :=
  (read_u16 s).bind fun lp =>
    if lp.1 > 0 then read_string_loop lp.1 0 [] lp.2 else some ([], lp.2)

/-- The implicit leading column the decoder synthesizes: name `"id"`
(code points of `i`, `d`), semantic type `from_u8 3 = Int32`, raw tag `3`. -/
def idColumn : DntColumn :=
  { text := [105, 100], data_type := DntDataType.Int32, raw_data_type := 3 }

/-- The wire-column loop of `read`: each iteration reads a length-prefixed
name, one raw tag byte, and resolves the tag. -/
def readColumns : Nat → List Nat → Option (List DntColumn × List Nat)
  | 0, s => some ([], s)
  | n + 1, s =>
    (read_string s).bind fun tp =>
      (read_byte tp.2).bind fun rp =>
        (DntDataType.from_u8 rp.1).bind fun dt =>
          (readColumns n rp.2).bind fun cp =>
            some (⟨tp.1, dt, rp.1⟩ :: cp.1, cp.2)

/-- One value, decoded according to the column's semantic type. -/
def readValue : DntDataType → List Nat → Option (DntValue × List Nat)
  | DntDataType.String, s =>
      (read_string s).bind fun p => some (DntValue.String p.1, p.2)
  | DntDataType.Int32, s =>
      (read_i32 s).bind fun p => some (DntValue.Int32 p.1, p.2)
  | DntDataType.Float32, s =>
      (read_f32 s).bind fun p => some (DntValue.Float32 p.1, p.2)

/-- One row: one value per header column, in header order. -/
def readRow : List DntColumn → List Nat → Option (List DntValue × List Nat)
  | [], s => some ([], s)
  | c :: cs, s =>
    (readValue c.data_type s).bind fun vp =>
      (readRow cs vp.2).bind fun rp =>
        some (vp.1 :: rp.1, rp.2)

/-- The row loop of `read`: `n` rows, each read against the full header. -/
def readRows : Nat → List DntColumn → List Nat → Option (List DntRow × List Nat)
  | 0, _, s => some ([], s)
  | n + 1, head, s =>
    (readRow head s).bind fun rp =>
      (readRows n head rp.2).bind fun rsp =>
        some (⟨rp.1⟩ :: rsp.1, rsp.2)

/-- `DntFileReader::read`: seek to offset 4 (drop the 4-byte prefix), read
the 16-bit column-count field and the 32-bit row count, read the wire
columns after the synthesized `id` column, then the rows.  `columns_nb` is
the `u16` sum `read_u16() + 1` (wrapping), and the Rust range
`1..columns_nb` iterates `columns_nb - 1` times. -/
def read (input : List Nat) : Option DntTable :=
  (read_u16 (input.drop 4)).bind fun cnp =>
    (read_u32 cnp.2).bind fun rnp =>
      (readColumns ((cnp.1 + 1) % 65536 - 1) rnp.2).bind fun cp =>
        (readRows rnp.1 (idColumn :: cp.1) cp.2).bind fun bp =>
          some ⟨idColumn :: cp.1, bp.1⟩

end DntFileReader

namespace DntFileWriter

/-- `write_byte`: one byte (the `u8` cast reduces `% 256`). -/
def write_byte (v : Nat) : List Nat :=
  [v % 256]

/-- `write_u16`: two bytes, little endian. -/
def write_u16 (v : Nat) : List Nat :=
  [v % 256, v / 256 % 256]

/-- `write_u32`: four bytes, little endian. -/
def write_u32 (v : Nat) : List Nat :=
  [v % 256, v / 256 % 256, v / 65536 % 256, v / 16777216 % 256]

/-- `write_i32`: the two's-complement bit pattern of the signed value, as
four little-endian bytes. -/
def write_i32 (v : Int) : List Nat :=
  write_u32 (v % 4294967296).toNat

/-- `write_f32`: `f32::to_bits` of the value, as four little-endian bytes
(the value is modelled by its bit pattern). -/
def write_f32 (bits : Nat) : List Nat :=
  write_u32 bits

/-- The loop of `write_string_bytes`: `for index in 0..value.len()` (byte
length!) emitting `value.chars().nth(index).unwrap() as u8`.  `n` counts the
remaining iterations, `i` is the loop index; `chars().nth(i)` is `cs.get? i`
and its `unwrap` fails (`none`) when the byte length exceeds the character
count. -/
def write_string_bytes_loop (cs : List Nat) : Nat → Nat → Option (List Nat)
  | 0, _ => some []
  | n + 1, i =>
    match cs.get? i with
    | some c =>
      match write_string_bytes_loop cs n (i + 1) with
      | some bs => some (c % 256 :: bs)
      | none => none
    | none => none

/-- `write_string_bytes`: iterate the byte length of the string, emitting
the character at each loop index narrowed to one byte. -/
def write_string_bytes (cs : List Nat) : Option (List Nat) :=
  write_string_bytes_loop cs (utf8Len cs) 0

/-- `write_string`: 16-bit little-endian `value.len() as u16` (UTF-8 byte
length), then `write_string_bytes`. -/
def write_string (cs : List Nat) : Option (List Nat) :=
  (write_string_bytes cs).bind fun payload =>
    some (write_u16 (utf8Len cs % 65536) ++ payload)

/-- One header column as written by `write`: the name in string format, then
the raw type tag byte. -/
def writeColumn (c : DntColumn) : Option (List Nat) :=
  (write_string c.text).bind fun nb =>
    some (nb ++ write_byte c.raw_data_type)

/-- The column loop of `write` over `head[1..]`, in order. -/
def writeColumns : List DntColumn → Option (List Nat)
  | [] => some []
  | c :: cs =>
    (writeColumn c).bind fun b =>
      (writeColumns cs).bind fun bs =>
        some (b ++ bs)

/-- One value as written by `write`. -/
def writeValue : DntValue → Option (List Nat)
  | DntValue.String s => write_string s
  | DntValue.Int32 v => some (write_i32 v)
  | DntValue.Float32 b => some (write_f32 b)

/-- One row: its values in order (the writer iterates `row.values`). -/
def writeRow : List DntValue → Option (List Nat)
  | [] => some []
  | v :: vs =>
    (writeValue v).bind fun b =>
      (writeRow vs).bind fun bs =>
        some (b ++ bs)

/-- The row loop of `write`. -/
def writeRows : List DntRow → Option (List Nat)
  | [] => some []
  | r :: rs =>
    (writeRow r.values).bind fun b =>
      (writeRows rs).bind fun bs =>
        some (b ++ bs)

/-- The code points of the closing text `"THEND"`. -/
def closing_text : List Nat :=
  [84, 72, 69, 78, 68]

/-- `DntFileWriter::write`: four zero bytes, `head.len() as u16 - 1`
(wrapping), `body.len() as u32`, the columns from index 1 on, the rows, and
the sentinel — `closing_text.len() as u8` then `write_string_bytes` of
`"THEND"`. -/
def write (t : DntTable) : Option (List Nat) :=
  (writeColumns (t.head.drop 1)).bind fun cb =>
    (writeRows t.body).bind fun rb =>
      (write_string_bytes closing_text).bind fun sb =>
        some (write_byte 0 ++ write_byte 0 ++ write_byte 0 ++ write_byte 0 ++
          write_u16 ((t.head.length % 65536 + 65535) % 65536) ++
          write_u32 (t.body.length % 4294967296) ++
          cb ++ rb ++ write_byte (utf8Len closing_text % 256) ++ sb)

end DntFileWriter

open DntFileReader DntFileWriter

/-- Does the value's variant match the column's semantic type? -/
def valueMatches : DntValue → DntDataType → Bool
  | DntValue.String _, DntDataType.String => true
  | DntValue.Int32 _, DntDataType.Int32 => true
  | DntValue.Float32 _, DntDataType.Float32 => true
  | _, _ => false

/-- Pointwise variant match of a row's values against a header (implies the
lengths agree). -/
def valuesMatch : List DntColumn → List DntValue → Bool
  | [], [] => true
  | c :: cs, v :: vs => valueMatches v c.data_type && valuesMatch cs vs
  | _, _ => false

/-- The shape invariants exactly as the specification states them: every
row's value count equals the header length, and every value's variant
matches its column's semantic type. -/
def shapeInv (t : DntTable) : Bool :=
  t.body.all fun r =>
    decide (r.values.length = t.head.length) && valuesMatch t.head r.values

/-- Range/encodability constraints on one value.  For `Int32` and `Float32`
they are what the Rust types `i32` / `f32` guarantee; for `String` they
restrict to ASCII texts of in-range length, which is what the source's
byte-indexed string code can actually write back (see the corrected
claims). -/
def valueOk : DntValue → Bool
  | DntValue.String s => s.all (fun b => decide (b < 128)) && decide (s.length < 65536)
  | DntValue.Int32 v => decide (-2147483648 ≤ v) && decide (v < 2147483648)
  | DntValue.Float32 b => decide (b < 4294967296)

/-- A column whose text is ASCII and short, whose raw tag is one byte, and
whose stored semantic type is exactly what the resolver gives for the tag. -/
def colOk (c : DntColumn) : Bool :=
  c.text.all (fun b => decide (b < 128)) && decide (c.text.length < 65536) &&
    decide (c.raw_data_type < 256) &&
    decide (DntDataType.from_u8 c.raw_data_type = some c.data_type)

/-- All conditions under which the encoder emits a faithful byte stream:
well-formed columns, in-range counts, and rows that match the header with
encodable values. -/
def tableWF (t : DntTable) : Bool :=
  t.head.all colOk && decide (t.head.length < 65536) &&
    decide (t.body.length < 4294967296) &&
    t.body.all fun r => valuesMatch t.head r.values && r.values.all valueOk

/-! ## Concrete tables and byte streams used in the claims -/

/-- The scenario input of the specification: zero prefix, column-count field
0, row count 1, one `id` value `0x41`. -/
def scenarioInput : List Nat :=
  [0, 0, 0, 0, 0, 0, 1, 0, 0, 0, 65, 0, 0, 0]

/-- The table the scenario input decodes to. -/
def scenarioTable : DntTable :=
  { head := [idColumn], body := [{ values := [DntValue.Int32 65] }] }

/-- The one-column, zero-row table. -/
def emptyTable : DntTable :=
  { head := [idColumn], body := [] }

/-- The 16 bytes the empty table encodes to. -/
def emptyTableBytes : List Nat :=
  [0, 0, 0, 0, 0, 0, 0, 0, 0, 0, 5, 84, 72, 69, 78, 68]

/-- A table that satisfies the shape invariants and starts with the `id`
column but carries an unresolvable raw tag `7` on its second column. -/
def badTagTable : DntTable :=
  { head := [idColumn, { text := [97], data_type := DntDataType.Int32, raw_data_type := 7 }],
    body := [] }

/-- A stream declaring one wire column named `a` with raw type tag `0`. -/
def badTag0Input : List Nat :=
  [0, 0, 0, 0, 1, 0, 0, 0, 0, 0, 1, 0, 97, 0]

/-- A stream declaring one wire column named `a` with raw type tag `6`. -/
def badTag6Input : List Nat :=
  [0, 0, 0, 0, 1, 0, 0, 0, 0, 0, 1, 0, 97, 6]

/-- A stream whose 16-bit column-count field is `0xFFFF`, making the `u16`
increment `read_u16() + 1` wrap to `0`. -/
def wrapCountInput : List Nat :=
  [0, 0, 0, 0, 255, 255, 0, 0, 0, 0]

/-- A table with 65538 header columns (the `id` column plus 65537 empty-named
Text columns) and no rows. -/
def bigTable : DntTable :=
  { head := idColumn :: List.replicate 65537 { text := [], data_type := DntDataType.String, raw_data_type := 1 },
    body := [] }

/-- A small two-column table whose second column keeps the raw tag `2`
variant of Int32. -/
def tag2Table : DntTable :=
  { head := [idColumn, { text := [120], data_type := DntDataType.Int32, raw_data_type := 2 }],
    body := [{ values := [DntValue.Int32 1, DntValue.Int32 (-7)] }] }

/-- A round-trip example exercising all three value types. -/
def sampleTable : DntTable :=
  { head := [idColumn,
      { text := [110, 97, 109, 101], data_type := DntDataType.String, raw_data_type := 1 },
      { text := [120], data_type := DntDataType.Float32, raw_data_type := 4 }],
    body := [{ values := [DntValue.Int32 (-2), DntValue.String [97, 98],
      DntValue.Float32 1065353216] }] }

/-! ## Primitive round-trip lemmas -/

theorem read_byte_write_byte (v : Nat) (hv : v < 256) (rest : List Nat) :
    read_byte (write_byte v ++ rest) = some (v, rest) := by
  simp [read_byte, write_byte, Nat.mod_eq_of_lt hv]

theorem read_u16_write_u16 (v : Nat) (hv : v < 65536) (rest : List Nat) :
    read_u16 (write_u16 v ++ rest) = some (v, rest) := by
  simp only [write_u16, List.cons_append, List.nil_append, read_u16,
    Option.some.injEq, Prod.mk.injEq, and_true]
  omega

theorem read_u32_write_u32 (v : Nat) (hv : v < 4294967296) (rest : List Nat) :
    read_u32 (write_u32 v ++ rest) = some (v, rest) := by
  simp only [write_u32, List.cons_append, List.nil_append, read_u32,
    Option.some.injEq, Prod.mk.injEq, and_true]
  omega

theorem read_i32_write_i32 (v : Int) (h1 : -2147483648 ≤ v) (h2 : v < 2147483648)
    (rest : List Nat) :
    read_i32 (write_i32 v ++ rest) = some (v, rest) := by
  have hmod : (0 : Int) ≤ v % 4294967296 := Int.emod_nonneg v (by norm_num)
  have hlt : v % 4294967296 < 4294967296 := Int.emod_lt_of_pos v (by norm_num)
  have htn : (v % 4294967296).toNat < 4294967296 := by omega
  rw [read_i32, write_i32, read_u32_write_u32 _ htn, Option.some_bind]
  simp only [Option.some.injEq, Prod.mk.injEq, and_true]
  split <;> omega

theorem read_f32_write_f32 (bits : Nat) (hb : bits < 4294967296) (rest : List Nat) :
    read_f32 (write_f32 bits ++ rest) = some (bits, rest) := by
  rw [read_f32, write_f32, read_u32_write_u32 _ hb]

/-! ## String-layer lemmas -/

theorem utf8Size_pos (c : Nat) : 1 ≤ utf8Size c := by
  unfold utf8Size
  split_ifs <;> norm_num

theorem utf8Size_of_lt (c : Nat) (h : c < 128) : utf8Size c = 1 := by
  unfold utf8Size
  simp [h]

theorem utf8Len_nil : utf8Len [] = 0 := rfl

theorem utf8Len_cons (c : Nat) (cs : List Nat) :
    utf8Len (c :: cs) = utf8Size c + utf8Len cs := by
  simp [utf8Len]

theorem utf8Len_append_singleton (cs : List Nat) (c : Nat) :
    utf8Len (cs ++ [c]) = utf8Len cs + utf8Size c := by
  simp [utf8Len]

theorem utf8Len_ascii (cs : List Nat) (h : ∀ b ∈ cs, b < 128) :
    utf8Len cs = cs.length := by
  induction cs with
  | nil => rfl
  | cons c cs ih =>
    rw [utf8Len_cons, utf8Size_of_lt c (h c (List.mem_cons_self c cs)),
      List.length_cons, ih fun b hb => h b (List.mem_cons_of_mem c hb)]
    omega

/-- Inserting at the byte index equal to the total byte length appends. -/
theorem stringInsert_append (cs : List Nat) (c : Nat) :
    stringInsert cs (utf8Len cs) c = some (cs ++ [c]) := by
  induction cs with
  | nil => simp [stringInsert, utf8Len_nil]
  | cons d rest ih =>
    have hpos := utf8Size_pos d
    have hlen : utf8Len (d :: rest) = utf8Size d + utf8Len rest := utf8Len_cons d rest
    rw [stringInsert, hlen, if_neg (by omega), if_neg (by omega)]
    have hsub : utf8Size d + utf8Len rest - utf8Size d = utf8Len rest := by omega
    rw [hsub, ih]
    rfl

/-- The `read_string` loop on an all-ASCII byte block: every insertion is an
append, so the loop returns the accumulator followed by the block. -/
theorem read_string_loop_ascii (bytes : List Nat) (h : ∀ b ∈ bytes, b < 128) :
    ∀ (acc rest : List Nat),
      read_string_loop bytes.length (utf8Len acc) acc (bytes ++ rest) =
        some (acc ++ bytes, rest) := by
  induction bytes with
  | nil => intro acc rest; simp [read_string_loop]
  | cons b bs ih =>
    intro acc rest
    rw [List.length_cons, List.cons_append, read_string_loop]
    rw [show read_byte (b :: (bs ++ rest)) = some (b, bs ++ rest) from rfl,
      Option.some_bind]
    show (stringInsert acc (utf8Len acc) b).bind
      (fun acc1 => read_string_loop bs.length (utf8Len acc + 1) acc1 (bs ++ rest)) =
      some (acc ++ b :: bs, rest)
    rw [stringInsert_append acc b, Option.some_bind]
    have hb : b < 128 := h b (List.mem_cons_self b bs)
    have hidx : utf8Len acc + 1 = utf8Len (acc ++ [b]) := by
      rw [utf8Len_append_singleton, utf8Size_of_lt b hb]
    rw [hidx, ih (fun x hx => h x (List.mem_cons_of_mem b hx)) (acc ++ [b]) rest]
    simp

/-- The `write_string_bytes` loop, started after a prefix of `pre` indices
with `suf.length` iterations to go, emits the suffix narrowed to bytes. -/
theorem write_string_bytes_loop_eq (pre suf : List Nat) :
    write_string_bytes_loop (pre ++ suf) suf.length pre.length =
      some (suf.map (· % 256)) := by
  induction suf generalizing pre with
  | nil => simp [write_string_bytes_loop]
  | cons c cs ih =>
    rw [List.length_cons, write_string_bytes_loop]
    have hget : (pre ++ c :: cs).get? pre.length = some c := by
      rw [List.get?_eq_getElem?, List.getElem?_append_right (Nat.le_refl _)]
      simp
    rw [hget]
    show (match write_string_bytes_loop (pre ++ c :: cs) cs.length (pre.length + 1) with
      | some bs => some (c % 256 :: bs)
      | none => none) = some ((c :: cs).map (· % 256))
    have hre : pre ++ c :: cs = (pre ++ [c]) ++ cs := by simp
    have hlen1 : pre.length + 1 = (pre ++ [c]).length := by simp
    rw [hre, hlen1, ih (pre ++ [c])]
    simp

theorem write_string_bytes_ascii (cs : List Nat) (h : ∀ b ∈ cs, b < 128) :
    write_string_bytes cs = some cs := by
  have h0 : write_string_bytes_loop cs cs.length 0 = some (cs.map (· % 256)) := by
    have := write_string_bytes_loop_eq [] cs
    simpa using this
  rw [write_string_bytes, utf8Len_ascii cs h, h0]
  rw [List.map_congr_left fun b hb => Nat.mod_eq_of_lt (by have := h b hb; omega)]
  simp

theorem write_string_ascii (cs : List Nat) (h : ∀ b ∈ cs, b < 128)
    (hlen : cs.length < 65536) :
    write_string cs = some (write_u16 cs.length ++ cs) := by
  rw [write_string, write_string_bytes_ascii cs h, Option.some_bind,
    utf8Len_ascii cs h, Nat.mod_eq_of_lt hlen]

/-- Round trip of the string format on ASCII strings of in-range length. -/
theorem read_string_write_string (cs : List Nat) (h : ∀ b ∈ cs, b < 128)
    (hlen : cs.length < 65536) (rest : List Nat) :
    read_string (write_u16 cs.length ++ (cs ++ rest)) = some (cs, rest) := by
  rw [read_string, read_u16_write_u16 cs.length hlen, Option.some_bind]
  show (if cs.length > 0 then read_string_loop cs.length 0 [] (cs ++ rest)
    else some ([], cs ++ rest)) = some (cs, rest)
  by_cases h0 : cs.length > 0
  · rw [if_pos h0]
    have := read_string_loop_ascii cs h [] rest
    rw [utf8Len_nil] at this
    simpa using this
  · rw [if_neg h0]
    have : cs = [] := List.length_eq_zero.mp (by omega)
    subst this
    simp

/-! ## Well-formedness predicates -/

theorem writeColumn_ok (c : DntColumn) (hc : colOk c = true) :
    writeColumn c = some (write_u16 c.text.length ++ c.text ++ [c.raw_data_type]) := by
  simp only [colOk, Bool.and_eq_true, decide_eq_true_eq, List.all_eq_true] at hc
  obtain ⟨⟨⟨htext, hlen⟩, hraw⟩, _⟩ := hc
  rw [writeColumn, write_string_ascii c.text (fun b hb => htext b hb) hlen,
    Option.some_bind]
  simp [write_byte, Nat.mod_eq_of_lt hraw, List.append_assoc]

/-- Writing then reading a block of well-formed columns is the identity,
leaving the rest of the stream untouched. -/
theorem readColumns_writeColumns (cols : List DntColumn)
    (h : ∀ c ∈ cols, colOk c = true) :
    ∃ cb, writeColumns cols = some cb ∧
      ∀ rest, readColumns cols.length (cb ++ rest) = some (cols, rest) := by
  induction cols with
  | nil => exact ⟨[], rfl, fun rest => by simp [readColumns]⟩
  | cons c cs ih =>
    obtain ⟨cb, hcb, hread⟩ := ih fun x hx => h x (List.mem_cons_of_mem c hx)
    have hc : colOk c = true := h c (List.mem_cons_self c cs)
    refine ⟨(write_u16 c.text.length ++ c.text ++ [c.raw_data_type]) ++ cb, ?_, ?_⟩
    · rw [writeColumns, writeColumn_ok c hc, Option.some_bind, hcb, Option.some_bind]
    · intro rest
      simp only [colOk, Bool.and_eq_true, decide_eq_true_eq, List.all_eq_true] at hc
      obtain ⟨⟨⟨htext, hlen⟩, hraw⟩, hres⟩ := hc
      rw [List.length_cons, readColumns]
      have heq : (write_u16 c.text.length ++ c.text ++ [c.raw_data_type]) ++ cb ++ rest =
          write_u16 c.text.length ++ (c.text ++ ([c.raw_data_type] ++ (cb ++ rest))) := by
        simp [List.append_assoc]
      rw [heq, read_string_write_string c.text (fun b hb => htext b hb) hlen _,
        Option.some_bind]
      show (read_byte ([c.raw_data_type] ++ (cb ++ rest))).bind (fun rp =>
        (DntDataType.from_u8 rp.1).bind fun dt =>
          (readColumns cs.length rp.2).bind fun cp =>
            some (⟨c.text, dt, rp.1⟩ :: cp.1, cp.2)) = some (c :: cs, rest)
      rw [show read_byte ([c.raw_data_type] ++ (cb ++ rest)) =
        some (c.raw_data_type, cb ++ rest) from rfl, Option.some_bind]
      show (DntDataType.from_u8 c.raw_data_type).bind (fun dt =>
        (readColumns cs.length (cb ++ rest)).bind fun cp =>
          some (⟨c.text, dt, c.raw_data_type⟩ :: cp.1, cp.2)) = some (c :: cs, rest)
      rw [hres, Option.some_bind, hread rest, Option.some_bind]

theorem readValue_writeValue (v : DntValue) (dt : DntDataType)
    (hm : valueMatches v dt = true) (hok : valueOk v = true) :
    ∃ b, writeValue v = some b ∧
      ∀ rest, readValue dt (b ++ rest) = some (v, rest) := by
  cases v with
  | String s =>
    cases dt with
    | Int32 => simp [valueMatches] at hm
    | Float32 => simp [valueMatches] at hm
    | String =>
      simp only [valueOk, Bool.and_eq_true, decide_eq_true_eq, List.all_eq_true] at hok
      obtain ⟨hascii, hlen⟩ := hok
      refine ⟨write_u16 s.length ++ s, ?_, fun rest => ?_⟩
      · rw [writeValue, write_string_ascii s (fun b hb => hascii b hb) hlen]
      · rw [readValue, List.append_assoc,
          read_string_write_string s (fun b hb => hascii b hb) hlen rest,
          Option.some_bind]
  | Int32 n =>
    cases dt with
    | String => simp [valueMatches] at hm
    | Float32 => simp [valueMatches] at hm
    | Int32 =>
      simp only [valueOk, Bool.and_eq_true, decide_eq_true_eq] at hok
      refine ⟨write_i32 n, rfl, fun rest => ?_⟩
      rw [readValue, read_i32_write_i32 n hok.1 hok.2 rest, Option.some_bind]
  | Float32 bits =>
    cases dt with
    | String => simp [valueMatches] at hm
    | Int32 => simp [valueMatches] at hm
    | Float32 =>
      simp only [valueOk, decide_eq_true_eq] at hok
      refine ⟨write_f32 bits, rfl, fun rest => ?_⟩
      rw [readValue, read_f32_write_f32 bits hok rest, Option.some_bind]

/-- Writing then reading one row against a matching header is the identity. -/
theorem readRow_writeRow (cols : List DntColumn) (vs : List DntValue)
    (hm : valuesMatch cols vs = true) (hok : ∀ v ∈ vs, valueOk v = true) :
    ∃ b, writeRow vs = some b ∧
      ∀ rest, readRow cols (b ++ rest) = some (vs, rest) := by
  induction cols generalizing vs with
  | nil =>
    cases vs with
    | nil => exact ⟨[], rfl, fun rest => by simp [readRow]⟩
    | cons v vs => simp [valuesMatch] at hm
  | cons c cs ih =>
    cases vs with
    | nil => simp [valuesMatch] at hm
    | cons v vs =>
      rw [valuesMatch, Bool.and_eq_true] at hm
      obtain ⟨hv, hb⟩ := ih vs hm.2 fun x hx => hok x (List.mem_cons_of_mem v hx)
      obtain ⟨b0, hw0, hr0⟩ :=
        readValue_writeValue v c.data_type hm.1 (hok v (List.mem_cons_self v vs))
      refine ⟨b0 ++ hv, ?_, fun rest => ?_⟩
      · rw [writeRow, hw0, Option.some_bind, hb.1, Option.some_bind]
      · rw [readRow, List.append_assoc, hr0 (hv ++ rest), Option.some_bind]
        show (readRow cs (hv ++ rest)).bind (fun rp => some (v :: rp.1, rp.2)) =
          some (v :: vs, rest)
        rw [hb.2 rest, Option.some_bind]

/-- Writing then reading a block of rows is the identity. -/
theorem readRows_writeRows (body : List DntRow) (cols : List DntColumn)
    (h : ∀ r ∈ body, valuesMatch cols r.values = true ∧ ∀ v ∈ r.values, valueOk v = true) :
    ∃ b, writeRows body = some b ∧
      ∀ rest, readRows body.length cols (b ++ rest) = some (body, rest) := by
  induction body with
  | nil => exact ⟨[], rfl, fun rest => by simp [readRows]⟩
  | cons r rs ih =>
    obtain ⟨b1, hw1, hr1⟩ := ih fun x hx => h x (List.mem_cons_of_mem r hx)
    obtain ⟨hm, hok⟩ := h r (List.mem_cons_self r rs)
    obtain ⟨b0, hw0, hr0⟩ := readRow_writeRow cols r.values hm hok
    refine ⟨b0 ++ b1, ?_, fun rest => ?_⟩
    · rw [writeRows, hw0, Option.some_bind, hw1, Option.some_bind]
    · rw [List.length_cons, readRows, List.append_assoc, hr0 (b1 ++ rest),
        Option.some_bind]
      show (readRows rs.length cols (b1 ++ rest)).bind
        (fun rsp => some (⟨r.values⟩ :: rsp.1, rsp.2)) = some (r :: rs, rest)
      rw [hr1 rest, Option.some_bind]

/-! ## Structural lemmas about successful decodes and encodes -/

theorem readColumns_length (n : Nat) (s : List Nat) (cols : List DntColumn)
    (s' : List Nat) (h : readColumns n s = some (cols, s')) : cols.length = n := by
  induction n generalizing s cols s' with
  | zero =>
    rw [readColumns] at h
    cases h
    rfl
  | succ n ih =>
    rw [readColumns] at h
    obtain ⟨tp, h1, h⟩ := Option.bind_eq_some.mp h
    obtain ⟨rp, h2, h⟩ := Option.bind_eq_some.mp h
    obtain ⟨dt, h3, h⟩ := Option.bind_eq_some.mp h
    obtain ⟨cp, h4, h⟩ := Option.bind_eq_some.mp h
    simp only [Option.some.injEq, Prod.mk.injEq] at h
    obtain ⟨hcols, -⟩ := h
    subst hcols
    simp [ih rp.2 cp.1 cp.2 h4]

theorem readColumns_resolved (n : Nat) (s : List Nat) (cols : List DntColumn)
    (s' : List Nat) (h : readColumns n s = some (cols, s')) :
    ∀ c ∈ cols, DntDataType.from_u8 c.raw_data_type = some c.data_type := by
  induction n generalizing s cols s' with
  | zero =>
    rw [readColumns] at h
    cases h
    simp
  | succ n ih =>
    rw [readColumns] at h
    obtain ⟨tp, h1, h⟩ := Option.bind_eq_some.mp h
    obtain ⟨rp, h2, h⟩ := Option.bind_eq_some.mp h
    obtain ⟨dt, h3, h⟩ := Option.bind_eq_some.mp h
    obtain ⟨cp, h4, h⟩ := Option.bind_eq_some.mp h
    simp only [Option.some.injEq, Prod.mk.injEq] at h
    obtain ⟨hcols, -⟩ := h
    subst hcols
    intro c hc2
    rcases List.mem_cons.mp hc2 with rfl | hc3
    · exact h3
    · exact ih rp.2 cp.1 cp.2 h4 c hc3

theorem readValue_matches (dt : DntDataType) (s : List Nat) (v : DntValue)
    (s' : List Nat) (h : readValue dt s = some (v, s')) :
    valueMatches v dt = true := by
  cases dt with
  | String =>
    rw [readValue] at h
    obtain ⟨p, h1, h⟩ := Option.bind_eq_some.mp h
    simp only [Option.some.injEq, Prod.mk.injEq] at h
    obtain ⟨hv, -⟩ := h
    subst hv
    rfl
  | Int32 =>
    rw [readValue] at h
    obtain ⟨p, h1, h⟩ := Option.bind_eq_some.mp h
    simp only [Option.some.injEq, Prod.mk.injEq] at h
    obtain ⟨hv, -⟩ := h
    subst hv
    rfl
  | Float32 =>
    rw [readValue] at h
    obtain ⟨p, h1, h⟩ := Option.bind_eq_some.mp h
    simp only [Option.some.injEq, Prod.mk.injEq] at h
    obtain ⟨hv, -⟩ := h
    subst hv
    rfl

theorem readRow_matches (cols : List DntColumn) (s : List Nat)
    (vs : List DntValue) (s' : List Nat) (h : readRow cols s = some (vs, s')) :
    valuesMatch cols vs = true := by
  induction cols generalizing s vs s' with
  | nil =>
    rw [readRow] at h
    cases h
    rfl
  | cons c cs ih =>
    rw [readRow] at h
    obtain ⟨vp, h1, h⟩ := Option.bind_eq_some.mp h
    obtain ⟨rp, h2, h⟩ := Option.bind_eq_some.mp h
    simp only [Option.some.injEq, Prod.mk.injEq] at h
    obtain ⟨hvs, -⟩ := h
    subst hvs
    rw [valuesMatch, Bool.and_eq_true]
    exact ⟨readValue_matches c.data_type s vp.1 vp.2 h1, ih vp.2 rp.1 rp.2 h2⟩

theorem valuesMatch_length (cols : List DntColumn) (vs : List DntValue)
    (h : valuesMatch cols vs = true) : vs.length = cols.length := by
  induction cols generalizing vs with
  | nil =>
    cases vs with
    | nil => rfl
    | cons v vs => simp [valuesMatch] at h
  | cons c cs ih =>
    cases vs with
    | nil => simp [valuesMatch] at h
    | cons v vs =>
      rw [valuesMatch, Bool.and_eq_true] at h
      simpa using ih vs h.2

theorem readRows_shape (n : Nat) (cols : List DntColumn) (s : List Nat)
    (rows : List DntRow) (s' : List Nat) (h : readRows n cols s = some (rows, s')) :
    rows.length = n ∧ ∀ r ∈ rows, valuesMatch cols r.values = true := by
  induction n generalizing s rows s' with
  | zero =>
    rw [readRows] at h
    cases h
    simp
  | succ n ih =>
    rw [readRows] at h
    obtain ⟨rp, h1, h⟩ := Option.bind_eq_some.mp h
    obtain ⟨rsp, h2, h⟩ := Option.bind_eq_some.mp h
    simp only [Option.some.injEq, Prod.mk.injEq] at h
    obtain ⟨hrows, -⟩ := h
    subst hrows
    obtain ⟨hlen, hall⟩ := ih rp.2 rsp.1 rsp.2 h2
    refine ⟨by simpa using hlen, fun r hrm => ?_⟩
    rcases List.mem_cons.mp hrm with rfl | h3
    · exact readRow_matches cols s rp.1 rp.2 h1
    · exact hall r h3

/-- Successful decodes, unfolded: the count fields, the wire columns after
the synthesized `id` column, and the rows. -/
theorem read_eq_some_iff (input : List Nat) (t : DntTable) :
    read input = some t ↔
      ∃ cn s1 rn s2 cols s3 body s4,
        read_u16 (input.drop 4) = some (cn, s1) ∧
        read_u32 s1 = some (rn, s2) ∧
        readColumns ((cn + 1) % 65536 - 1) s2 = some (cols, s3) ∧
        readRows rn (idColumn :: cols) s3 = some (body, s4) ∧
        t = ⟨idColumn :: cols, body⟩ := by
  constructor
  · intro h
    unfold DntFileReader.read at h
    obtain ⟨cnp, h1, h⟩ := Option.bind_eq_some.mp h
    obtain ⟨rnp, h2, h⟩ := Option.bind_eq_some.mp h
    obtain ⟨cp, h3, h⟩ := Option.bind_eq_some.mp h
    obtain ⟨bp, h4, h⟩ := Option.bind_eq_some.mp h
    exact ⟨cnp.1, cnp.2, rnp.1, rnp.2, cp.1, cp.2, bp.1, bp.2, h1, h2, h3, h4,
      (Option.some.inj h).symm⟩
  · rintro ⟨cn, s1, rn, s2, cols, s3, body, s4, h1, h2, h3, h4, rfl⟩
    unfold DntFileReader.read
    rw [h1, Option.some_bind]
    show (read_u32 s1).bind _ = _
    rw [h2, Option.some_bind]
    show (readColumns ((cn + 1) % 65536 - 1) s2).bind _ = _
    rw [h3, Option.some_bind]
    show (readRows rn (idColumn :: cols) s3).bind _ = _
    rw [h4, Option.some_bind]

/-- The sentinel text is written successfully (it is all ASCII). -/
theorem write_string_bytes_closing :
    write_string_bytes closing_text = some closing_text := rfl

/-- Successful encodes, unfolded: the zero prefix, the wrapped count fields,
the column bytes, the row bytes, and the sentinel. -/
theorem write_eq_some_iff (t : DntTable) (out : List Nat) :
    write t = some out ↔
      ∃ cb rb,
        writeColumns (t.head.drop 1) = some cb ∧
        writeRows t.body = some rb ∧
        out = [0, 0, 0, 0] ++ write_u16 ((t.head.length % 65536 + 65535) % 65536) ++
          write_u32 (t.body.length % 4294967296) ++ cb ++ rb ++
          [5, 84, 72, 69, 78, 68] := by
  constructor
  · intro h
    unfold DntFileWriter.write at h
    obtain ⟨cb, h1, h⟩ := Option.bind_eq_some.mp h
    obtain ⟨rb, h2, h⟩ := Option.bind_eq_some.mp h
    obtain ⟨sb, h3, h⟩ := Option.bind_eq_some.mp h
    rw [write_string_bytes_closing] at h3
    cases Option.some.inj h3
    refine ⟨cb, rb, h1, h2, ?_⟩
    have hform := (Option.some.inj h).symm
    rw [hform]
    show write_byte 0 ++ write_byte 0 ++ write_byte 0 ++ write_byte 0 ++ _ ++ _ ++
      cb ++ rb ++ write_byte (utf8Len closing_text % 256) ++ closing_text = _
    simp [write_byte, closing_text, List.append_assoc]
    rfl
  · rintro ⟨cb, rb, h1, h2, rfl⟩
    unfold DntFileWriter.write
    rw [h1, Option.some_bind]
    show (writeRows t.body).bind _ = _
    rw [h2, Option.some_bind]
    show (write_string_bytes closing_text).bind _ = _
    rw [write_string_bytes_closing, Option.some_bind]
    show some (write_byte 0 ++ write_byte 0 ++ write_byte 0 ++ write_byte 0 ++
      write_u16 ((t.head.length % 65536 + 65535) % 65536) ++
      write_u32 (t.body.length % 4294967296) ++
      cb ++ rb ++ write_byte (utf8Len closing_text % 256) ++ closing_text) = _
    simp [write_byte, closing_text, List.append_assoc]
    rfl

/-- The full encode-then-decode round trip under the well-formedness
conditions.  Kept as a helper so the claim theorems stay single
statements. -/
theorem write_then_read (t : DntTable) (h0 : t.head.head? = some idColumn)
    (hwf : tableWF t = true) :
    (DntFileWriter.write t).bind DntFileReader.read = some t := by
  obtain ⟨head, body⟩ := t
  cases head with
  | nil => exact absurd h0 (by simp)
  | cons c tail =>
    have hc : c = idColumn := by simpa using h0
    subst hc
    simp only [tableWF, Bool.and_eq_true, decide_eq_true_eq, List.all_eq_true] at hwf
    obtain ⟨⟨⟨hcols, hhlen⟩, hblen⟩, hrows⟩ := hwf
    simp only [List.length_cons] at hhlen
    obtain ⟨cb, hcb, hcbRead⟩ :=
      readColumns_writeColumns tail fun x hx => hcols x (List.mem_cons_of_mem _ hx)
    obtain ⟨rb, hrb, hrbRead⟩ := readRows_writeRows body (idColumn :: tail) hrows
    have hw : DntFileWriter.write ⟨idColumn :: tail, body⟩ =
        some ([0, 0, 0, 0] ++
          write_u16 (((idColumn :: tail).length % 65536 + 65535) % 65536) ++
          write_u32 (body.length % 4294967296) ++ cb ++ rb ++
          [5, 84, 72, 69, 78, 68]) :=
      (write_eq_some_iff _ _).mpr ⟨cb, rb, hcb, hrb, rfl⟩
    have hcnt : ((idColumn :: tail).length % 65536 + 65535) % 65536 = tail.length := by
      simp only [List.length_cons]
      omega
    have hblen2 : body.length % 4294967296 = body.length := Nat.mod_eq_of_lt hblen
    rw [hcnt, hblen2] at hw
    rw [hw, Option.some_bind]
    apply (read_eq_some_iff _ _).mpr
    refine ⟨tail.length, write_u32 body.length ++ (cb ++ (rb ++ [5, 84, 72, 69, 78, 68])),
      body.length, cb ++ (rb ++ [5, 84, 72, 69, 78, 68]), tail,
      rb ++ [5, 84, 72, 69, 78, 68], body, [5, 84, 72, 69, 78, 68], ?_, ?_, ?_, ?_, rfl⟩
    · have hdrop : ([0, 0, 0, 0] ++ write_u16 tail.length ++ write_u32 body.length ++
          cb ++ rb ++ [5, 84, 72, 69, 78, 68]).drop 4 =
          write_u16 tail.length ++
            (write_u32 body.length ++ (cb ++ (rb ++ [5, 84, 72, 69, 78, 68]))) := by
        simp [List.append_assoc]
      rw [hdrop, read_u16_write_u16 tail.length (by omega)]
    · rw [read_u32_write_u32 body.length hblen]
    · have harg : (tail.length + 1) % 65536 - 1 = tail.length := by omega
      rw [harg]
      exact hcbRead _
    · exact hrbRead _

/-- The tag resolver fails exactly on `0` and on every tag of `6` or more. -/
theorem from_u8_eq_none_iff (b : Nat) :
    DntDataType.from_u8 b = none ↔ b = 0 ∨ 6 ≤ b := by
  constructor
  · intro h
    match b, h with
    | 0, _ => exact Or.inl rfl
    | 1, h => exact Option.noConfusion h
    | 2, h => exact Option.noConfusion h
    | 3, h => exact Option.noConfusion h
    | 4, h => exact Option.noConfusion h
    | 5, h => exact Option.noConfusion h
    | (k + 6), _ => exact Or.inr (by omega)
  · rintro (rfl | h6)
    · rfl
    · obtain ⟨k, rfl⟩ := Nat.exists_eq_add_of_le h6
      rw [Nat.add_comm]
      rfl

/-- Every column of a successfully decoded table carries a raw tag the
resolver accepts, and its semantic type is exactly the resolved one. -/
theorem read_resolved (input : List Nat) (t : DntTable)
    (h : DntFileReader.read input = some t) :
    ∀ c ∈ t.head, DntDataType.from_u8 c.raw_data_type = some c.data_type := by
  obtain ⟨cn, s1, rn, s2, cols, s3, body, s4, h1, h2, h3, h4, rfl⟩ :=
    (read_eq_some_iff input t).mp h
  intro c hc
  rcases List.mem_cons.mp hc with rfl | hc2
  · rfl
  · exact readColumns_resolved _ _ _ _ h3 c hc2

/-- The wrapping `head.len() as u16 - 1` equals `(length - 1)` reduced
modulo `2^16` over the integers. -/
theorem count_field_eq (n : Nat) :
    (n % 65536 + 65535) % 65536 = (((n : Int) - 1) % 65536).toNat := by omega

theorem writeColumns_replicate (n : Nat) (c : DntColumn) (b : List Nat)
    (hc : writeColumn c = some b) :
    ∃ cb, writeColumns (List.replicate n c) = some cb := by
  induction n with
  | zero => exact ⟨[], rfl⟩
  | succ n ih =>
    obtain ⟨cb, hcb⟩ := ih
    refine ⟨b ++ cb, ?_⟩
    rw [List.replicate_succ, writeColumns, hc, Option.some_bind, hcb, Option.some_bind]

/-- The 65538-column table is encoded (not rejected), and its column-count
field holds the wrapped value `1`. -/
theorem write_bigTable_spec :
    ∃ out, DntFileWriter.write bigTable = some out ∧
      out.take 6 = [0, 0, 0, 0, 1, 0] := by
  have hcol : writeColumn ⟨[], DntDataType.String, 1⟩ = some [0, 0, 1] := by decide
  obtain ⟨cb, hcb⟩ := writeColumns_replicate 65537 _ _ hcol
  have hw : DntFileWriter.write bigTable =
      some ([0, 0, 0, 0] ++
        write_u16 ((bigTable.head.length % 65536 + 65535) % 65536) ++
        write_u32 (bigTable.body.length % 4294967296) ++ cb ++ [] ++
        [5, 84, 72, 69, 78, 68]) :=
    (write_eq_some_iff _ _).mpr ⟨cb, [], hcb, rfl, rfl⟩
  have hlen : bigTable.head.length = 65538 := by
    show (idColumn :: List.replicate 65537
      { text := [], data_type := DntDataType.String, raw_data_type := 1 }).length = 65538
    rw [List.length_cons, List.length_replicate]
  have hcnt : (bigTable.head.length % 65536 + 65535) % 65536 = 1 := by
    rw [hlen]
  rw [hcnt] at hw
  exact ⟨_, hw, rfl⟩

/-! ## The claims -/

/-- C1, counterexample to the claim as stated: a table that satisfies the
shape invariants and whose header starts with the `id` column, but whose
second column carries raw tag `7`, is encoded successfully and then fails
to decode, so encode-then-decode does not reproduce the table. -/
theorem c1_counterexample :
    shapeInv badTagTable = true ∧
    badTagTable.head.head? = some idColumn ∧
    (DntFileWriter.write badTagTable).bind DntFileReader.read = none ∧
    (DntFileWriter.write badTagTable).bind DntFileReader.read ≠ some badTagTable :=
  ⟨by decide, by decide, by decide, by decide⟩

/-- C1 (amended): for every table whose header starts with the synthesized
`id` column and which moreover satisfies `tableWF` (each column's stored
semantic type is exactly what the resolver gives for its raw one-byte tag,
all texts are ASCII and shorter than `2^16`, Int32 values are in `i32`
range, Float32 bit patterns fit 32 bits, the header has fewer than `2^16`
columns and the body fewer than `2^32` rows), decoding the encoding yields
the table back exactly — names, raw tags, and values bit-for-bit. -/
theorem c1_roundtrip (t : DntTable) (h0 : t.head.head? = some idColumn)
    (hwf : tableWF t = true) :
    (DntFileWriter.write t).bind DntFileReader.read = some t :=
  write_then_read t h0 hwf

theorem c1_roundtrip_witness :
    (DntFileWriter.write sampleTable).bind DntFileReader.read = some sampleTable :=
  c1_roundtrip sampleTable (by decide) (by decide)

/-- C2: the tag resolver maps `1` to Text, `2` and `3` to Int32, `4` and `5`
to Float32, and fails on every other tag (exactly `0` and everything from
`6` up); decoding a column header with raw tag `0` or `6` fails outright,
and no successful decode ever contains a column whose tag did not resolve
to its stored semantic type. -/
theorem c2_type_tag_resolver :
    DntDataType.from_u8 1 = some DntDataType.String ∧
    DntDataType.from_u8 2 = some DntDataType.Int32 ∧
    DntDataType.from_u8 3 = some DntDataType.Int32 ∧
    DntDataType.from_u8 4 = some DntDataType.Float32 ∧
    DntDataType.from_u8 5 = some DntDataType.Float32 ∧
    (∀ b : Nat, DntDataType.from_u8 b = none ↔ b = 0 ∨ 6 ≤ b) ∧
    DntFileReader.read badTag0Input = none ∧
    DntFileReader.read badTag6Input = none ∧
    ∀ input t, DntFileReader.read input = some t →
      ∀ c ∈ t.head, DntDataType.from_u8 c.raw_data_type = some c.data_type :=
  ⟨rfl, rfl, rfl, rfl, rfl, from_u8_eq_none_iff, by decide, by decide, read_resolved⟩

theorem c2_type_tag_resolver_witness :
    DntDataType.from_u8 0 = none ∧ DntDataType.from_u8 6 = none ∧
    DntDataType.from_u8 idColumn.raw_data_type = some idColumn.data_type :=
  ⟨(c2_type_tag_resolver.2.2.2.2.2.1 0).mpr (Or.inl rfl),
    (c2_type_tag_resolver.2.2.2.2.2.1 6).mpr (Or.inr (by norm_num)),
    c2_type_tag_resolver.2.2.2.2.2.2.2.2 scenarioInput scenarioTable (by decide)
      idColumn (by decide)⟩

/-- C3, counterexample to the claim as stated: on the stream whose 16-bit
column-count field is `C = 65535` the decoder succeeds but produces a
1-column header (the `u16` increment `C + 1` wraps to `0`), not the
claimed `C + 1 = 65536` columns. -/
theorem c3_counterexample :
    read_u16 (wrapCountInput.drop 4) = some (65535, [0, 0, 0, 0]) ∧
    (DntFileReader.read wrapCountInput).map (fun t => t.head.length) = some 1 ∧
    (1 : Nat) ≠ 65535 + 1 :=
  ⟨by decide, by decide, by decide⟩

/-- C3 (amended): every successful decode positions the stream at offset 4,
reads the 16-bit column count `C` and then the 32-bit row count, and
produces the header `idColumn :: cols` where `cols` are the
`(C + 1) % 2^16 - 1` wire columns read in order (each a length-prefixed
name followed by a one-byte tag); for `C < 65535` that is exactly `C + 1`
header columns with the synthesized `id` column at index 0. -/
theorem c3_header_structure (input : List Nat) (t : DntTable)
    (h : DntFileReader.read input = some t) :
    ∃ cn s1 rn s2 cols s3,
      read_u16 (input.drop 4) = some (cn, s1) ∧
      read_u32 s1 = some (rn, s2) ∧
      readColumns ((cn + 1) % 65536 - 1) s2 = some (cols, s3) ∧
      t.head = idColumn :: cols ∧
      cols.length = (cn + 1) % 65536 - 1 ∧
      (cn < 65535 → t.head.length = cn + 1) := by
  obtain ⟨cn, s1, rn, s2, cols, s3, body, s4, h1, h2, h3, h4, rfl⟩ :=
    (read_eq_some_iff input t).mp h
  have hlen := readColumns_length _ _ _ _ h3
  refine ⟨cn, s1, rn, s2, cols, s3, h1, h2, h3, rfl, hlen, fun hc => ?_⟩
  simp only [List.length_cons, hlen]
  omega

theorem c3_header_structure_witness :
    ∃ cn s1 rn s2 cols s3,
      read_u16 (scenarioInput.drop 4) = some (cn, s1) ∧
      read_u32 s1 = some (rn, s2) ∧
      readColumns ((cn + 1) % 65536 - 1) s2 = some (cols, s3) ∧
      scenarioTable.head = idColumn :: cols ∧
      cols.length = (cn + 1) % 65536 - 1 ∧
      (cn < 65535 → scenarioTable.head.length = cn + 1) :=
  c3_header_structure scenarioInput scenarioTable (by decide)

/-- C4: the string decoder evaluated at the failing input.  On the stream
`[0x02, 0x00, 0xE9, 0x41]` (length 2, payload bytes `0xE9 0x41`) the
claim demands the two-character result; the code instead panics — the
second `String::insert` lands at byte index 1, inside the two-byte UTF-8
encoding of `U+00E9`.  The zero-length case and all-ASCII streams behave
as the claim says. -/
theorem c4_read_string_insert_bug :
    DntFileReader.read_string [2, 0, 233, 65] = none ∧
    DntFileReader.read_string [0, 0, 99] = some ([], [99]) ∧
    DntFileReader.read_string [3, 0, 97, 98, 99, 100] = some ([97, 98, 99], [100]) :=
  ⟨by decide, by decide, by decide⟩

/-- C5: whatever `write` emits decomposes as prefix, count fields, then for
each header column from index 1 onward in order its name in string format
followed by its raw tag byte as stored; a raw tag `2` is re-encoded as the
byte `2`, never canonicalized to `3`. -/
theorem c5_column_encoding :
    (∀ (c : DntColumn) (b : List Nat), writeColumn c = some b →
      ∃ nb, write_string c.text = some nb ∧ b = nb ++ [c.raw_data_type % 256]) ∧
    (∀ (c : DntColumn) (b : List Nat), writeColumn c = some b →
      c.raw_data_type = 2 → b.getLast? = some 2) ∧
    (∀ (c : DntColumn) (cs : List DntColumn), writeColumns (c :: cs) =
      (writeColumn c).bind fun b => (writeColumns cs).bind fun bs => some (b ++ bs)) ∧
    ∀ (t : DntTable) (out : List Nat), DntFileWriter.write t = some out →
      ∃ cb rb, writeColumns (t.head.drop 1) = some cb ∧ writeRows t.body = some rb ∧
        out = [0, 0, 0, 0] ++ write_u16 ((t.head.length % 65536 + 65535) % 65536) ++
          write_u32 (t.body.length % 4294967296) ++ cb ++ rb ++
          [5, 84, 72, 69, 78, 68] := by
  refine ⟨?_, ?_, ?_, ?_⟩
  · intro c b h
    rw [writeColumn] at h
    obtain ⟨nb, h1, h2⟩ := Option.bind_eq_some.mp h
    exact ⟨nb, h1, (Option.some.inj h2).symm⟩
  · intro c b h h2
    rw [writeColumn] at h
    obtain ⟨nb, h1, h3⟩ := Option.bind_eq_some.mp h
    rw [← Option.some.inj h3, h2]
    show (nb ++ [2 % 256]).getLast? = some 2
    rw [List.getLast?_concat]
  · intro c cs
    rw [writeColumns]
  · intro t out h
    exact (write_eq_some_iff t out).mp h

theorem c5_column_encoding_witness :
    ([0, 0, 2] : List Nat).getLast? = some 2 :=
  c5_column_encoding.2.1 { text := [], data_type := DntDataType.Int32, raw_data_type := 2 }
    [0, 0, 2] (by decide) rfl

/-- C6: every successfully decoded table has exactly the declared number of
rows, and satisfies the shape invariant — each row has one value per header
column with the variant demanded by that column's semantic type. -/
theorem c6_decode_shape (input : List Nat) (t : DntTable)
    (h : DntFileReader.read input = some t) :
    (∃ cn s1 rn s2, read_u16 (input.drop 4) = some (cn, s1) ∧
      read_u32 s1 = some (rn, s2) ∧ t.body.length = rn) ∧
    shapeInv t = true := by
  obtain ⟨cn, s1, rn, s2, cols, s3, body, s4, h1, h2, h3, h4, rfl⟩ :=
    (read_eq_some_iff input t).mp h
  obtain ⟨hlen, hall⟩ := readRows_shape _ _ _ _ _ h4
  refine ⟨⟨cn, s1, rn, s2, h1, h2, hlen⟩, ?_⟩
  simp only [shapeInv, List.all_eq_true, Bool.and_eq_true, decide_eq_true_eq]
  intro r hr
  exact ⟨valuesMatch_length _ _ (hall r hr), hall r hr⟩

theorem c6_decode_shape_witness :
    (∃ cn s1 rn s2, read_u16 (scenarioInput.drop 4) = some (cn, s1) ∧
      read_u32 s1 = some (rn, s2) ∧ scenarioTable.body.length = rn) ∧
    shapeInv scenarioTable = true :=
  c6_decode_shape scenarioInput scenarioTable (by decide)

/-- C7, counterexample to the claim as stated: on the one-character text
`U+00E9` (byte length 2) the claim demands the output `[2, 0, 0xE9]`;
the encoder instead fails — `chars().nth(1)` is `None` because the byte
length exceeds the character count. -/
theorem c7_counterexample :
    utf8Len [233] = 2 ∧
    DntFileWriter.write_string [233] = none ∧
    DntFileWriter.write_string [233] ≠
      some (write_u16 (utf8Len [233]) ++ [233 % 256]) :=
  ⟨by decide, by decide, by decide⟩

/-- C7 (amended): on texts whose characters are all ASCII (code below 128)
and of length below `2^16` — where byte length and character count agree —
encoding writes the 16-bit little-endian byte length followed by each
character as one byte; the zero-length text encodes as exactly
`0x00 0x00`. -/
theorem c7_write_string_spec :
    DntFileWriter.write_string [] = some [0, 0] ∧
    ∀ cs : List Nat, (∀ b ∈ cs, b < 128) → cs.length < 65536 →
      DntFileWriter.write_string cs = some (write_u16 cs.length ++ cs) :=
  ⟨by decide, fun cs h hl => write_string_ascii cs h hl⟩

theorem c7_write_string_spec_witness :
    DntFileWriter.write_string [104, 105] = some (write_u16 2 ++ [104, 105]) :=
  c7_write_string_spec.2 [104, 105] (by decide) (by decide)

/-- C8: the one-column (`id`, tag 3) zero-row table encodes to exactly the
16 bytes zero prefix, zero count field, zero row count, sentinel length 5
and `THEND`, and those bytes decode back to the same table. -/
theorem c8_empty_table :
    DntFileWriter.write emptyTable = some emptyTableBytes ∧
    emptyTableBytes.length = 16 ∧
    emptyTableBytes =
      [0, 0, 0, 0] ++ [0, 0] ++ [0, 0, 0, 0] ++ [5] ++ [84, 72, 69, 78, 68] ∧
    DntFileReader.read emptyTableBytes = some emptyTable :=
  ⟨by decide, by decide, by decide, by decide⟩

/-- C9, counterexample to the claim as stated: the 65538-column table is
encoded with column-count field `1` (bytes `01 00` at offsets 4-5), which
is not the claimed `header length - 1 = 65537` — the field only matches
modulo `2^16`. -/
theorem c9_counterexample :
    (DntFileWriter.write bigTable).map (fun out => out.take 6) =
      some [0, 0, 0, 0, 1, 0] ∧
    bigTable.head.length - 1 = 65537 ∧
    read_u16 [1, 0] = some (1, []) ∧
    (1 : Nat) ≠ 65537 := by
  obtain ⟨out, hw, htake⟩ := write_bigTable_spec
  have h1 : (DntFileWriter.write bigTable).map (fun o => o.take 6) =
      some [0, 0, 0, 0, 1, 0] := by
    rw [hw]
    show some (out.take 6) = some [0, 0, 0, 0, 1, 0]
    rw [htake]
  have h2 : bigTable.head.length - 1 = 65537 := by
    have hl : bigTable.head.length = 65537 + 1 := by
      rw [show bigTable.head = idColumn :: List.replicate 65537
        { text := [], data_type := DntDataType.String, raw_data_type := 1 } from rfl]
      rw [List.length_cons, List.length_replicate]
    omega
  exact ⟨h1, h2, rfl, by norm_num⟩

/-- C9 (amended): every successful encode is exactly the 4-byte zero
prefix, the 16-bit column-count field `(header length - 1) mod 2^16`, the
32-bit row count, the column records, the row values, and — always last,
whatever the table contains — the sentinel byte `5` followed by the ASCII
bytes `THEND`. -/
theorem c9_layout (t : DntTable) (out : List Nat)
    (h : DntFileWriter.write t = some out) :
    ∃ cb rb, writeColumns (t.head.drop 1) = some cb ∧ writeRows t.body = some rb ∧
      out = [0, 0, 0, 0] ++ write_u16 ((((t.head.length : Int) - 1) % 65536).toNat) ++
        write_u32 (t.body.length % 4294967296) ++ cb ++ rb ++
        [5, 84, 72, 69, 78, 68] := by
  obtain ⟨cb, rb, h1, h2, rfl⟩ := (write_eq_some_iff t out).mp h
  exact ⟨cb, rb, h1, h2, by rw [← count_field_eq]⟩

theorem c9_layout_witness :
    ∃ cb rb, writeColumns (emptyTable.head.drop 1) = some cb ∧
      writeRows emptyTable.body = some rb ∧
      emptyTableBytes = [0, 0, 0, 0] ++
        write_u16 ((((emptyTable.head.length : Int) - 1) % 65536).toNat) ++
        write_u32 (emptyTable.body.length % 4294967296) ++ cb ++ rb ++
        [5, 84, 72, 69, 78, 68] :=
  c9_layout emptyTable emptyTableBytes (by decide)

/-- C10: the emitted column-count field is `(header length - 1)` reduced
modulo `2^16` and the row-count field is the body length reduced modulo
`2^32`, with no range check — in particular the 65538-column table is
silently encoded rather than rejected. -/
theorem c10_wrapped_counts :
    (∀ (t : DntTable) (out : List Nat), DntFileWriter.write t = some out →
      (out.drop 4).take 2 = write_u16 ((((t.head.length : Int) - 1) % 65536).toNat) ∧
      (out.drop 6).take 4 = write_u32 (t.body.length % 4294967296)) ∧
    (DntFileWriter.write bigTable).isSome = true := by
  constructor
  · intro t out h
    obtain ⟨cb, rb, h1, h2, rfl⟩ := (write_eq_some_iff t out).mp h
    rw [← count_field_eq]
    constructor
    · show ((0 :: 0 :: 0 :: 0 :: (write_u16 ((t.head.length % 65536 + 65535) % 65536) ++
        (write_u32 (t.body.length % 4294967296) ++ (cb ++ (rb ++ [5, 84, 72, 69, 78, 68]))))).drop 4).take 2 =
        write_u16 ((t.head.length % 65536 + 65535) % 65536)
      simp [write_u16, List.take, List.drop]
    · show ((0 :: 0 :: 0 :: 0 :: (write_u16 ((t.head.length % 65536 + 65535) % 65536) ++
        (write_u32 (t.body.length % 4294967296) ++ (cb ++ (rb ++ [5, 84, 72, 69, 78, 68]))))).drop 6).take 4 =
        write_u32 (t.body.length % 4294967296)
      simp [write_u16, write_u32, List.take, List.drop]
  · obtain ⟨out, hw, -⟩ := write_bigTable_spec
    rw [hw]
    rfl

theorem c10_wrapped_counts_witness :
    (emptyTableBytes.drop 4).take 2 =
      write_u16 ((((emptyTable.head.length : Int) - 1) % 65536).toNat) ∧
    (emptyTableBytes.drop 6).take 4 =
      write_u32 (emptyTable.body.length % 4294967296) :=
  (c10_wrapped_counts.1 emptyTable emptyTableBytes (by decide))
